import Mathlib

/-!
Verification development for `ddbm` (src/main.go), a DynamoDB table
export/import command-line tool.

The program is embedded shallowly:

* DynamoDB attribute values (`types.AttributeValue`) become the inductive
  `AttributeValue`; plain JSON values (Go `any` after `encoding/json`
  decoding) become `JsonValue`.
* The backing store is abstracted as a `StoreBehavior`: the result of the
  one `DescribeTable` call and the successive pages the scan paginator
  yields.  Put-item outcomes on import are a function from the write's
  position to an optional error.  Errors are opaque strings.
* `export` and `importFromFile` mirror the Go functions of the same names.
  Each returns, besides its result, the trace of store requests it issued
  (`Request`), and the import additionally returns the list of items whose
  writes committed, so that frame and partial-failure properties can be
  stated.
* Table contents are `List AttrItem`; the effect of the issued writes on a
  table is `applyWrites`, an unconditional overwrite keyed by the
  primary/range key attributes, which is DynamoDB `PutItem` semantics.
-/

/-- Model of `types.AttributeValue`: string, number, boolean, null, list,
map, and string-set members.  Numbers are modelled as integers.  The `ss`
(string set) constructor is a DynamoDB type with no faithful plain-JSON
counterpart: `attributevalue` unmarshals it to a JSON array of strings,
which marshals back to an `l` of `s` values, so items containing it are
not representable in the typed-JSON encoding. -/
inductive AttributeValue where
  | s (v : String)
  | n (v : Int)
  | bool (v : Bool)
  | null
  | l (v : List AttributeValue)
  | m (v : List (String × AttributeValue))
  | ss (v : List String)

/-- Model of a plain JSON value, the shape `encoding/json` produces for a
Go `any`.  Objects are association lists of fields. -/
inductive JsonValue where
  | str (v : String)
  | num (v : Int)
  | jbool (v : Bool)
  | jnull
  | arr (v : List JsonValue)
  | obj (v : List (String × JsonValue))

mutual

/-- Decidable equality for attribute values (hand-rolled: the deriving
handler does not support nested inductives). -/
def avDecEq : (a b : AttributeValue) → Decidable (a = b)
  | .s v, .s w => decidable_of_iff (v = w) (by simp)
  | .n v, .n w => decidable_of_iff (v = w) (by simp)
  | .bool v, .bool w => decidable_of_iff (v = w) (by simp)
  | .null, .null => isTrue rfl
  | .ss v, .ss w => decidable_of_iff (v = w) (by simp)
  | .l v, .l w =>
    match avListDecEq v w with
    | isTrue h => isTrue (by rw [h])
    | isFalse h => isFalse (fun hh => h (by injection hh))
  | .m v, .m w =>
    match avMapDecEq v w with
    | isTrue h => isTrue (by rw [h])
    | isFalse h => isFalse (fun hh => h (by injection hh))
  | .s _, .n _ => isFalse (fun h => AttributeValue.noConfusion h)
  | .s _, .bool _ => isFalse (fun h => AttributeValue.noConfusion h)
  | .s _, .null => isFalse (fun h => AttributeValue.noConfusion h)
  | .s _, .l _ => isFalse (fun h => AttributeValue.noConfusion h)
  | .s _, .m _ => isFalse (fun h => AttributeValue.noConfusion h)
  | .s _, .ss _ => isFalse (fun h => AttributeValue.noConfusion h)
  | .n _, .s _ => isFalse (fun h => AttributeValue.noConfusion h)
  | .n _, .bool _ => isFalse (fun h => AttributeValue.noConfusion h)
  | .n _, .null => isFalse (fun h => AttributeValue.noConfusion h)
  | .n _, .l _ => isFalse (fun h => AttributeValue.noConfusion h)
  | .n _, .m _ => isFalse (fun h => AttributeValue.noConfusion h)
  | .n _, .ss _ => isFalse (fun h => AttributeValue.noConfusion h)
  | .bool _, .s _ => isFalse (fun h => AttributeValue.noConfusion h)
  | .bool _, .n _ => isFalse (fun h => AttributeValue.noConfusion h)
  | .bool _, .null => isFalse (fun h => AttributeValue.noConfusion h)
  | .bool _, .l _ => isFalse (fun h => AttributeValue.noConfusion h)
  | .bool _, .m _ => isFalse (fun h => AttributeValue.noConfusion h)
  | .bool _, .ss _ => isFalse (fun h => AttributeValue.noConfusion h)
  | .null, .s _ => isFalse (fun h => AttributeValue.noConfusion h)
  | .null, .n _ => isFalse (fun h => AttributeValue.noConfusion h)
  | .null, .bool _ => isFalse (fun h => AttributeValue.noConfusion h)
  | .null, .l _ => isFalse (fun h => AttributeValue.noConfusion h)
  | .null, .m _ => isFalse (fun h => AttributeValue.noConfusion h)
  | .null, .ss _ => isFalse (fun h => AttributeValue.noConfusion h)
  | .l _, .s _ => isFalse (fun h => AttributeValue.noConfusion h)
  | .l _, .n _ => isFalse (fun h => AttributeValue.noConfusion h)
  | .l _, .bool _ => isFalse (fun h => AttributeValue.noConfusion h)
  | .l _, .null => isFalse (fun h => AttributeValue.noConfusion h)
  | .l _, .m _ => isFalse (fun h => AttributeValue.noConfusion h)
  | .l _, .ss _ => isFalse (fun h => AttributeValue.noConfusion h)
  | .m _, .s _ => isFalse (fun h => AttributeValue.noConfusion h)
  | .m _, .n _ => isFalse (fun h => AttributeValue.noConfusion h)
  | .m _, .bool _ => isFalse (fun h => AttributeValue.noConfusion h)
  | .m _, .null => isFalse (fun h => AttributeValue.noConfusion h)
  | .m _, .l _ => isFalse (fun h => AttributeValue.noConfusion h)
  | .m _, .ss _ => isFalse (fun h => AttributeValue.noConfusion h)
  | .ss _, .s _ => isFalse (fun h => AttributeValue.noConfusion h)
  | .ss _, .n _ => isFalse (fun h => AttributeValue.noConfusion h)
  | .ss _, .bool _ => isFalse (fun h => AttributeValue.noConfusion h)
  | .ss _, .null => isFalse (fun h => AttributeValue.noConfusion h)
  | .ss _, .l _ => isFalse (fun h => AttributeValue.noConfusion h)
  | .ss _, .m _ => isFalse (fun h => AttributeValue.noConfusion h)

/-- Decidable equality for pairs of a name and an attribute value. -/
def avPairDecEq : (a b : String × AttributeValue) → Decidable (a = b)
  | (k1, v1), (k2, v2) =>
    if h1 : k1 = k2 then
      match avDecEq v1 v2 with
      | isTrue h2 => isTrue (by rw [h1, h2])
      | isFalse h2 => isFalse (fun h => h2 (congrArg Prod.snd h))
    else isFalse (fun h => h1 (congrArg Prod.fst h))

/-- Decidable equality for lists of attribute values. -/
def avListDecEq : (a b : List AttributeValue) → Decidable (a = b)
  | [], [] => isTrue rfl
  | [], _ :: _ => isFalse (fun h => List.noConfusion h)
  | _ :: _, [] => isFalse (fun h => List.noConfusion h)
  | x :: xs, y :: ys =>
    match avDecEq x y with
    | isFalse h1 => isFalse (fun h => h1 (by injection h))
    | isTrue h1 =>
      match avListDecEq xs ys with
      | isTrue h2 => isTrue (by rw [h1, h2])
      | isFalse h2 => isFalse (fun h => h2 (by injection h))

/-- Decidable equality for attribute maps. -/
def avMapDecEq : (a b : List (String × AttributeValue)) → Decidable (a = b)
  | [], [] => isTrue rfl
  | [], _ :: _ => isFalse (fun h => List.noConfusion h)
  | _ :: _, [] => isFalse (fun h => List.noConfusion h)
  | x :: xs, y :: ys =>
    match avPairDecEq x y with
    | isFalse h1 => isFalse (fun h => h1 (by injection h))
    | isTrue h1 =>
      match avMapDecEq xs ys with
      | isTrue h2 => isTrue (by rw [h1, h2])
      | isFalse h2 => isFalse (fun h => h2 (by injection h))

end

instance : DecidableEq AttributeValue := avDecEq

mutual

/-- Decidable equality for JSON values (hand-rolled for the same reason
as `avDecEq`). -/
def jvDecEq : (a b : JsonValue) → Decidable (a = b)
  | .str v, .str w => decidable_of_iff (v = w) (by simp)
  | .num v, .num w => decidable_of_iff (v = w) (by simp)
  | .jbool v, .jbool w => decidable_of_iff (v = w) (by simp)
  | .jnull, .jnull => isTrue rfl
  | .arr v, .arr w =>
    match jvListDecEq v w with
    | isTrue h => isTrue (by rw [h])
    | isFalse h => isFalse (fun hh => h (by injection hh))
  | .obj v, .obj w =>
    match jvMapDecEq v w with
    | isTrue h => isTrue (by rw [h])
    | isFalse h => isFalse (fun hh => h (by injection hh))
  | .str _, .num _ => isFalse (fun h => JsonValue.noConfusion h)
  | .str _, .jbool _ => isFalse (fun h => JsonValue.noConfusion h)
  | .str _, .jnull => isFalse (fun h => JsonValue.noConfusion h)
  | .str _, .arr _ => isFalse (fun h => JsonValue.noConfusion h)
  | .str _, .obj _ => isFalse (fun h => JsonValue.noConfusion h)
  | .num _, .str _ => isFalse (fun h => JsonValue.noConfusion h)
  | .num _, .jbool _ => isFalse (fun h => JsonValue.noConfusion h)
  | .num _, .jnull => isFalse (fun h => JsonValue.noConfusion h)
  | .num _, .arr _ => isFalse (fun h => JsonValue.noConfusion h)
  | .num _, .obj _ => isFalse (fun h => JsonValue.noConfusion h)
  | .jbool _, .str _ => isFalse (fun h => JsonValue.noConfusion h)
  | .jbool _, .num _ => isFalse (fun h => JsonValue.noConfusion h)
  | .jbool _, .jnull => isFalse (fun h => JsonValue.noConfusion h)
  | .jbool _, .arr _ => isFalse (fun h => JsonValue.noConfusion h)
  | .jbool _, .obj _ => isFalse (fun h => JsonValue.noConfusion h)
  | .jnull, .str _ => isFalse (fun h => JsonValue.noConfusion h)
  | .jnull, .num _ => isFalse (fun h => JsonValue.noConfusion h)
  | .jnull, .jbool _ => isFalse (fun h => JsonValue.noConfusion h)
  | .jnull, .arr _ => isFalse (fun h => JsonValue.noConfusion h)
  | .jnull, .obj _ => isFalse (fun h => JsonValue.noConfusion h)
  | .arr _, .str _ => isFalse (fun h => JsonValue.noConfusion h)
  | .arr _, .num _ => isFalse (fun h => JsonValue.noConfusion h)
  | .arr _, .jbool _ => isFalse (fun h => JsonValue.noConfusion h)
  | .arr _, .jnull => isFalse (fun h => JsonValue.noConfusion h)
  | .arr _, .obj _ => isFalse (fun h => JsonValue.noConfusion h)
  | .obj _, .str _ => isFalse (fun h => JsonValue.noConfusion h)
  | .obj _, .num _ => isFalse (fun h => JsonValue.noConfusion h)
  | .obj _, .jbool _ => isFalse (fun h => JsonValue.noConfusion h)
  | .obj _, .jnull => isFalse (fun h => JsonValue.noConfusion h)
  | .obj _, .arr _ => isFalse (fun h => JsonValue.noConfusion h)

/-- Decidable equality for pairs of a name and a JSON value. -/
def jvPairDecEq : (a b : String × JsonValue) → Decidable (a = b)
  | (k1, v1), (k2, v2) =>
    if h1 : k1 = k2 then
      match jvDecEq v1 v2 with
      | isTrue h2 => isTrue (by rw [h1, h2])
      | isFalse h2 => isFalse (fun h => h2 (congrArg Prod.snd h))
    else isFalse (fun h => h1 (congrArg Prod.fst h))

/-- Decidable equality for lists of JSON values. -/
def jvListDecEq : (a b : List JsonValue) → Decidable (a = b)
  | [], [] => isTrue rfl
  | [], _ :: _ => isFalse (fun h => List.noConfusion h)
  | _ :: _, [] => isFalse (fun h => List.noConfusion h)
  | x :: xs, y :: ys =>
    match jvDecEq x y with
    | isFalse h1 => isFalse (fun h => h1 (by injection h))
    | isTrue h1 =>
      match jvListDecEq xs ys with
      | isTrue h2 => isTrue (by rw [h1, h2])
      | isFalse h2 => isFalse (fun h => h2 (by injection h))

/-- Decidable equality for JSON object field lists. -/
def jvMapDecEq : (a b : List (String × JsonValue)) → Decidable (a = b)
  | [], [] => isTrue rfl
  | [], _ :: _ => isFalse (fun h => List.noConfusion h)
  | _ :: _, [] => isFalse (fun h => List.noConfusion h)
  | x :: xs, y :: ys =>
    match jvPairDecEq x y with
    | isFalse h1 => isFalse (fun h => h1 (by injection h))
    | isTrue h1 =>
      match jvMapDecEq xs ys with
      | isTrue h2 => isTrue (by rw [h1, h2])
      | isFalse h2 => isFalse (fun h => h2 (by injection h))

end

instance : DecidableEq JsonValue := jvDecEq

/-- A stored item: a record mapping attribute names to attribute values,
as returned by `Scan` and accepted by `PutItem`. -/
abbrev AttrItem := List (String × AttributeValue)

/-- An item in plain-JSON form, as held in `exportFormat.Items`
(`[]map[string]any` in the Go source). -/
abbrev JsonObj := List (String × JsonValue)

mutual

/-- Model of `attributevalue` unmarshalling of one attribute value into a
Go `any`, as performed (element-wise) by `attributevalue.UnmarshalListOfMaps`. -/
def avToJson : AttributeValue → JsonValue
  | .s v => .str v
  | .n v => .num v
  | .bool v => .jbool v
  | .null => .jnull
  | .l v => .arr (avListToJson v)
  | .m v => .obj (avMapToJson v)
  | .ss v => .arr (v.map JsonValue.str)

/-- Unmarshalling of a list of attribute values. -/
def avListToJson : List AttributeValue → List JsonValue
  | [] => []
  | x :: rest => avToJson x :: avListToJson rest

/-- Unmarshalling of an attribute map's fields. -/
def avMapToJson : List (String × AttributeValue) → List (String × JsonValue)
  | [] => []
  | (k, v) :: rest => (k, avToJson v) :: avMapToJson rest

end

mutual

/-- Model of `attributevalue` marshalling of one plain-JSON value back
into an attribute value, as performed (field-wise) by
`attributevalue.MarshalMap` on import. -/
def jsonToAv : JsonValue → AttributeValue
  | .str v => .s v
  | .num v => .n v
  | .jbool v => .bool v
  | .jnull => .null
  | .arr v => .l (jsonListToAv v)
  | .obj v => .m (jsonMapToAv v)

/-- Marshalling of a list of plain-JSON values. -/
def jsonListToAv : List JsonValue → List AttributeValue
  | [] => []
  | x :: rest => jsonToAv x :: jsonListToAv rest

/-- Marshalling of a plain-JSON object's fields. -/
def jsonMapToAv : List (String × JsonValue) → List (String × AttributeValue)
  | [] => []
  | (k, v) :: rest => (k, jsonToAv v) :: jsonMapToAv rest

end

/-- Model of `attributevalue.MarshalMap(item)` in the import loop. -/
def marshalMap (o : JsonObj) : AttrItem := jsonMapToAv o

/-- Model of `attributevalue.UnmarshalListOfMaps(items, &exportData.Items)`. -/
def unmarshalListOfMaps (items : List AttrItem) : List JsonObj :=
  items.map avMapToJson

/-- Model of `types.KeyType` (HASH or RANGE). -/
inductive KeyType where
  | hash
  | range
deriving DecidableEq

/-- Model of `types.KeySchemaElement`. -/
structure KeySchemaElement where
  attributeName : String
  keyType : KeyType
deriving DecidableEq

/-- The part of the `DescribeTable` output the program reads:
`table.Table.TableName` and `table.Table.KeySchema`. -/
structure TableDesc where
  tableName : String
  keySchema : List KeySchemaElement
deriving DecidableEq

/-- A request issued to the backing store. -/
inductive Request where
  | describeTable (table : String)
  | scan (table : String)
  | putItem (table : String) (item : AttrItem)
deriving DecidableEq

/-- Behaviour of the backing store during an export run: what the single
`DescribeTable` call returns, and the successive pages the scan paginator
yields (each page either a list of items or an error). -/
structure StoreBehavior where
  describe : Except String TableDesc
  pages : List (Except String (List AttrItem))

/-- Model of the Go `exportFormat` struct.  Field names are the Go field
names, which are also the JSON keys `encoding/json` emits. -/
structure exportFormat where
  TableName : String
  PrimaryKey : String
  RangeKey : String
  Items : List JsonObj
deriving DecidableEq

/-- The key-extraction loop of `export` (src/main.go lines 102-110): fold
over the key schema, recording the attribute name of each HASH element as
the primary key and of each RANGE element as the range key, starting from
the zero values `""`. -/
def extractKeys (ks : List KeySchemaElement) : String × String :=
  ks.foldl
    (fun pr k =>
      match k.keyType with
      | KeyType.hash => (k.attributeName, pr.2)
      | KeyType.range => (pr.1, k.attributeName))
    ("", "")

/-- The scan-pagination loop of `export` (src/main.go lines 112-124): one
`Scan` request per page; on a page error return that error at once,
discarding items accumulated so far; otherwise append the page's items. -/
def scanPages (tbl : String) :
    List (Except String (List AttrItem)) → List Request × Except String (List AttrItem)
  | [] => ([], Except.ok [])
  | p :: rest =>
    match p with
    | .error e => ([Request.scan tbl], Except.error e)
    | .ok pg =>
      let r := scanPages tbl rest
      (Request.scan tbl :: r.1,
       match r.2 with
       | .error e => Except.error e
       | .ok acc => Except.ok (pg ++ acc))

/-- The `export` function of src/main.go up to (but not including) JSON
serialization: describe the table, extract the key names, scan all pages,
unmarshal the items, and build the `exportFormat` value.  Returns the
request trace together with the document or the first error. -/
def exportDoc (tbl : String) (st : StoreBehavior) :
    List Request × Except String exportFormat :=
  match st.describe with
  | .error e => ([Request.describeTable tbl], Except.error e)
  | .ok table =>
    let keys := extractKeys table.keySchema
    let scanned := scanPages tbl st.pages
    (Request.describeTable tbl :: scanned.1,
     match scanned.2 with
     | .error e => Except.error e
     | .ok items =>
       Except.ok
         { TableName := table.tableName
           PrimaryKey := keys.1
           RangeKey := keys.2
           Items := unmarshalListOfMaps items })

/-- Escape one character for a JSON string literal (quotes and
backslashes; the other escapes do not occur in the claims' data). -/
def escapeChar (c : Char) : String :=
  if c = '\x22' then "\\\x22"
  else if c = '\\' then "\\\\"
  else String.singleton c

/-- Render a JSON string literal as `encoding/json` does. -/
def jstr (v : String) : String :=
  "\x22" ++ String.join (v.data.map escapeChar) ++ "\x22"

/-- Lexicographic order on character lists by codepoint, the order Go
uses for map keys in `json.Marshal` (byte order, which agrees with
codepoint order on ASCII keys). -/
def charListLe : List Char → List Char → Bool
  | [], _ => true
  | _ :: _, [] => false
  | a :: as, b :: bs =>
    if a.toNat < b.toNat then true
    else if b.toNat < a.toNat then false
    else charListLe as bs

/-- String comparison for map-key sorting. -/
def strLe (a b : String) : Bool := charListLe a.data b.data

/-- Insert one rendered object field into a key-sorted list of rendered
fields (`encoding/json` emits Go map keys in sorted order). -/
def insertField (f : String × String) : List (String × String) → List (String × String)
  | [] => [f]
  | g :: gs => if strLe f.1 g.1 then f :: g :: gs else g :: insertField f gs

/-- Sort rendered object fields by key. -/
def sortFields (fs : List (String × String)) : List (String × String) :=
  fs.foldr insertField []

mutual

/-- Model of `json.Marshal` on a plain JSON value: Go map keys (here:
object fields) are emitted in sorted order. -/
def serializeJson : JsonValue → String
  | .str v => jstr v
  | .num v => toString v
  | .jbool v => if v then "true" else "false"
  | .jnull => "null"
  | .arr v => "[" ++ String.intercalate "," (serializeJsonList v) ++ "]"
  | .obj v =>
    "\x7b" ++
      String.intercalate ","
        ((sortFields (serializeJsonFields v)).map (fun f => jstr f.1 ++ ":" ++ f.2)) ++
    "\x7d"

/-- Render each element of a JSON array. -/
def serializeJsonList : List JsonValue → List String
  | [] => []
  | x :: rest => serializeJson x :: serializeJsonList rest

/-- Render each field value of a JSON object, keeping its key. -/
def serializeJsonFields : List (String × JsonValue) → List (String × String)
  | [] => []
  | (k, v) :: rest => (k, serializeJson v) :: serializeJsonFields rest

end

/-- Model of `json.Marshal(exportData)` (src/main.go line 131): a Go
struct marshals its fields in declaration order, `TableName`,
`PrimaryKey`, `RangeKey`, `Items`. -/
def serializeExportFormat (d : exportFormat) : String :=
  "\x7b\x22TableName\x22:" ++ jstr d.TableName ++
  ",\x22PrimaryKey\x22:" ++ jstr d.PrimaryKey ++
  ",\x22RangeKey\x22:" ++ jstr d.RangeKey ++
  ",\x22Items\x22:" ++ serializeJson (JsonValue.arr (d.Items.map JsonValue.obj)) ++
  "\x7d"

/-- The full `export` function of src/main.go (named `exportRun` because
`export` is a Lean keyword): `exportDoc` followed by JSON serialization
of the document. -/
def exportRun (tbl : String) (st : StoreBehavior) :
    List Request × Except String String :=
  let r := exportDoc tbl st
  (r.1,
   match r.2 with
   | .error e => Except.error e
   | .ok d => Except.ok (serializeExportFormat d))

/-- The parsed form of an import file before Go zero-value defaulting:
each top-level field of the JSON document is present or absent.
`json.Unmarshal` tolerates absent fields, leaving the struct field at its
zero value. -/
structure RawDoc where
  tableName : Option String
  primaryKey : Option String
  rangeKey : Option String
  items : Option (List JsonObj)
deriving DecidableEq

/-- Model of `json.Unmarshal(raw, &data)` filling a fresh `exportFormat`:
absent fields default to the zero values `""` and the empty list. -/
def decodeDoc (r : RawDoc) : exportFormat :=
  { TableName := r.tableName.getD ""
    PrimaryKey := r.primaryKey.getD ""
    RangeKey := r.rangeKey.getD ""
    Items := r.items.getD [] }

/-- The document a successful parse of `serializeExportFormat d` yields:
every top-level field present, with `d`'s values (the `encoding/json`
marshal/unmarshal round trip of the document). -/
def rawOfDoc (d : exportFormat) : RawDoc :=
  { tableName := some d.TableName
    primaryKey := some d.PrimaryKey
    rangeKey := some d.RangeKey
    items := some d.Items }

/-- The write loop of `importFromFile` (src/main.go lines 165-178): for
each item in order, marshal it and issue one `PutItem` against the table
named by the `--table` flag; `po i` is the store's outcome for the write
at position `i` (`none` = success).  Returns the request trace, the items
whose writes committed (in order), and the result: the first write error
aborts the remaining sequence and is returned unchanged, and committed
writes stay committed. -/
def importLoop (tbl : String) (po : Nat → Option String) :
    List JsonObj → Nat → List Request × List AttrItem × Except String Unit
  | [], _ => ([], [], Except.ok ())
  | it :: rest, i =>
    let av := marshalMap it
    match po i with
    | some e => ([Request.putItem tbl av], [], Except.error e)
    | none =>
      let r := importLoop tbl po rest (i + 1)
      (Request.putItem tbl av :: r.1, av :: r.2.1, r.2.2)

/-- The `importFromFile` function of src/main.go from the point where the
file has been read and parsed (`raw`): present the confirmation prompt,
and if the user did not confirm — because they answered "no", or because
the prompt errored, since `form.Run()`'s error is discarded and `confirm`
keeps its zero value `false` — return `nil` with no writes; otherwise run
the write loop over the decoded document's items.  Returns the request
trace, the committed writes, and the result. -/
def importFromFile (tbl : String) (raw : RawDoc) (confirm : Bool)
    (po : Nat → Option String) :
    List Request × List AttrItem × Except String Unit :=
  let data := decodeDoc raw
  if confirm then importLoop tbl po data.Items 0
  else ([], [], Except.ok ())

/-- The value of attribute `k` in an item, if present (first binding wins,
matching a well-formed item where names are unique). -/
def lookupAttr (k : String) (it : AttrItem) : Option AttributeValue :=
  (it.find? (fun p => p.1 == k)).map (fun p => p.2)

/-- Two items collide in the table keyed by primary-key attribute `pk`
and range-key attribute `rk` when they agree on both key attributes.  A
hash-only table has `rk = ""`, an attribute name no item carries, so the
condition degenerates to agreement on `pk`. -/
def sameKey (pk rk : String) (x y : AttrItem) : Prop :=
  lookupAttr pk x = lookupAttr pk y ∧ lookupAttr rk x = lookupAttr rk y

instance (pk rk : String) (x y : AttrItem) : Decidable (sameKey pk rk x y) := by
  unfold sameKey; infer_instance

/-- DynamoDB `PutItem` semantics on a table state: unconditional
overwrite-or-create keyed by the key attributes. -/
def putItemState (pk rk : String) (tb : List AttrItem) (it : AttrItem) :
    List AttrItem :=
  it :: tb.filter (fun x => decide (¬ sameKey pk rk x it))

/-- Effect of a sequence of committed writes on a table state. -/
def applyWrites (pk rk : String) (tb : List AttrItem) (ws : List AttrItem) :
    List AttrItem :=
  ws.foldl (putItemState pk rk) tb

/-- All scan pages succeed and their concatenation is the given item
list. -/
def pagesAll : List (Except String (List AttrItem)) → Option (List AttrItem)
  | [] => some []
  | .error _ :: _ => none
  | .ok pg :: rest => (pagesAll rest).map (fun acc => pg ++ acc)

/-- The spec's concrete scenario: the items of table `foo`,
`(id = "a", v = 1)` and `(id = "b", v = 2)`. -/
def fooItems : List AttrItem :=
  [[("id", AttributeValue.s "a"), ("v", AttributeValue.n 1)],
   [("id", AttributeValue.s "b"), ("v", AttributeValue.n 2)]]

/-- Schema of table `foo`: hash key `id`, no range key. -/
def fooDesc : TableDesc :=
  { tableName := "foo"
    keySchema := [{ attributeName := "id", keyType := KeyType.hash }] }

/-- Store behaviour for table `foo`: describe succeeds, one successful
scan page holding both items. -/
def fooStore : StoreBehavior :=
  { describe := Except.ok fooDesc
    pages := [Except.ok fooItems] }

/-- Schema of a table `bar` with both a hash key and a range key. -/
def barDesc : TableDesc :=
  { tableName := "bar"
    keySchema := [{ attributeName := "pk", keyType := KeyType.hash },
                  { attributeName := "sk", keyType := KeyType.range }] }

/-- Store behaviour for table `bar`: describe succeeds, empty table. -/
def barStore : StoreBehavior :=
  { describe := Except.ok barDesc
    pages := [] }

/-- Store behaviour whose scan fails on its third page, after two
successful pages. -/
def failStore : StoreBehavior :=
  { describe := Except.ok fooDesc
    pages := [Except.ok fooItems, Except.ok fooItems, Except.error "scanfail"] }

/-- A parsed import document with two one-attribute items. -/
def cexDoc : RawDoc :=
  { tableName := some "t"
    primaryKey := some "id"
    rangeKey := none
    items := some [[("id", JsonValue.str "a")], [("id", JsonValue.str "b")]] }

/-- Put outcomes where the write at position 0 fails. -/
def poFail0 : Nat → Option String := fun i => if i = 0 then some "boom" else none

/-- Put outcomes where the write at position 1 fails. -/
def poFail1 : Nat → Option String := fun i => if i = 1 then some "boom" else none

/-! ### Lemmas about the scan loop -/

theorem scanPages_allOk (tbl : String) :
    ∀ (ps : List (Except String (List AttrItem))) (items : List AttrItem),
      pagesAll ps = some items → (scanPages tbl ps).2 = Except.ok items := by
  intro ps
  induction ps with
  | nil => intro items h; simp [pagesAll] at h; subst h; rfl
  | cons p rest ih =>
    intro items h
    cases p with
    | error e => simp [pagesAll] at h
    | ok pg =>
      cases hrest : pagesAll rest with
      | none => simp [pagesAll, hrest] at h
      | some acc =>
        simp only [pagesAll, hrest] at h
        simp at h
        subst h
        simp [scanPages, ih acc hrest]

theorem scanPages_failAt (tbl : String) (e : String)
    (rest : List (Except String (List AttrItem))) :
    ∀ okpgs : List (List AttrItem),
      (scanPages tbl (okpgs.map Except.ok ++ Except.error e :: rest)).2 =
        Except.error e := by
  intro okpgs
  induction okpgs with
  | nil => rfl
  | cons pg okpgs ih => simp [scanPages, ih]

theorem scanPages_trace (tbl : String) :
    ∀ (ps : List (Except String (List AttrItem))) (r : Request),
      r ∈ (scanPages tbl ps).1 → r = Request.scan tbl := by
  intro ps
  induction ps with
  | nil => intro r h; simp [scanPages] at h
  | cons p rest ih =>
    intro r h
    cases p with
    | error e => simp [scanPages] at h; exact h
    | ok pg =>
      simp only [scanPages, List.mem_cons] at h
      rcases h with h | h
      · exact h
      · exact ih r h

/-! ### Lemmas about the export pipeline -/

theorem exportDoc_ok (tbl : String) (st : StoreBehavior) (desc : TableDesc)
    (items : List AttrItem)
    (hd : st.describe = Except.ok desc)
    (hp : pagesAll st.pages = some items) :
    (exportDoc tbl st).2 =
      Except.ok
        { TableName := desc.tableName
          PrimaryKey := (extractKeys desc.keySchema).1
          RangeKey := (extractKeys desc.keySchema).2
          Items := unmarshalListOfMaps items } := by
  simp [exportDoc, hd, scanPages_allOk tbl st.pages items hp]

/-! ### Lemmas about the import write loop -/

theorem importLoop_allOk (tbl : String) (po : Nat → Option String)
    (hpo : ∀ j, po j = none) :
    ∀ (items : List JsonObj) (i : Nat),
      importLoop tbl po items i =
        (items.map (fun o => Request.putItem tbl (marshalMap o)),
         items.map marshalMap, Except.ok ()) := by
  intro items
  induction items with
  | nil => intro i; rfl
  | cons it rest ih => intro i; simp [importLoop, hpo i, ih (i + 1)]

theorem importLoop_failAt (tbl : String) (po : Nat → Option String) :
    ∀ (items : List JsonObj) (i K : Nat) (e : String),
      K < items.length →
      po (i + K) = some e →
      (∀ j < K, po (i + j) = none) →
      importLoop tbl po items i =
        ((items.take (K + 1)).map (fun o => Request.putItem tbl (marshalMap o)),
         (items.take K).map marshalMap, Except.error e) := by
  intro items
  induction items with
  | nil => intro i K e hK; simp at hK
  | cons it rest ih =>
    intro i K e hK hfail hok
    cases K with
    | zero =>
      simp only [Nat.add_zero] at hfail
      simp [importLoop, hfail]
    | succ K =>
      have h0 : po i = none := by
        have := hok 0 (Nat.succ_pos K)
        simpa using this
      have hfail' : po (i + 1 + K) = some e := by
        have : i + 1 + K = i + (K + 1) := by omega
        rw [this]; exact hfail
      have hok' : ∀ j < K, po (i + 1 + j) = none := by
        intro j hj
        have : i + 1 + j = i + (j + 1) := by omega
        rw [this]; exact hok (j + 1) (by omega)
      have hK' : K < rest.length := by simpa using hK
      simp [importLoop, h0, ih (i + 1) K e hK' hfail' hok']

/-! ### Lemmas about the table-state semantics -/

theorem mem_putItemState (pk rk : String) (s : List AttrItem) (a x : AttrItem) :
    x ∈ putItemState pk rk s a ↔ x = a ∨ (x ∈ s ∧ ¬ sameKey pk rk x a) := by
  simp [putItemState, List.mem_filter]

theorem mem_applyWrites (pk rk : String) :
    ∀ (ws : List AttrItem) (s : List AttrItem) (x : AttrItem),
      x ∈ applyWrites pk rk s ws ↔
        x ∈ applyWrites pk rk [] ws ∨
          (x ∈ s ∧ ∀ a ∈ ws, ¬ sameKey pk rk x a) := by
  intro ws
  induction ws with
  | nil => intro s x; simp [applyWrites]
  | cons a ws ih =>
    intro s x
    have h1 : x ∈ applyWrites pk rk s (a :: ws) ↔
        x ∈ applyWrites pk rk [] ws ∨
          (x ∈ putItemState pk rk s a ∧ ∀ b ∈ ws, ¬ sameKey pk rk x b) :=
      ih (putItemState pk rk s a) x
    have h2 : x ∈ applyWrites pk rk [] (a :: ws) ↔
        x ∈ applyWrites pk rk [] ws ∨
          (x ∈ putItemState pk rk [] a ∧ ∀ b ∈ ws, ¬ sameKey pk rk x b) :=
      ih (putItemState pk rk [] a) x
    rw [h1, h2, mem_putItemState, mem_putItemState]
    constructor
    · rintro (hA | ⟨hpa, hW⟩)
      · exact Or.inl (Or.inl hA)
      · rcases hpa with rfl | ⟨hs, hk⟩
        · exact Or.inl (Or.inr ⟨Or.inl rfl, hW⟩)
        · refine Or.inr ⟨hs, ?_⟩
          intro b hb
          rcases List.mem_cons.mp hb with rfl | hb'
          · exact hk
          · exact hW b hb'
    · rintro ((hA | ⟨hpa, hW⟩) | ⟨hs, hall⟩)
      · exact Or.inl hA
      · rcases hpa with rfl | ⟨hf, _⟩
        · exact Or.inr ⟨Or.inl rfl, hW⟩
        · exact absurd hf (List.not_mem_nil _)
      · refine Or.inr ⟨Or.inr ⟨hs, hall a (List.mem_cons_self a _)⟩, ?_⟩
        intro b hb
        exact hall b (List.mem_cons_of_mem a hb)

theorem mem_applyWrites_empty (pk rk : String) :
    ∀ ws : List AttrItem,
      ws.Pairwise (fun a b => ¬ sameKey pk rk a b) →
      ∀ x, x ∈ applyWrites pk rk [] ws ↔ x ∈ ws := by
  intro ws
  induction ws with
  | nil => intro _ x; simp [applyWrites]
  | cons a ws ih =>
    intro hpw x
    rw [List.pairwise_cons] at hpw
    have h1 : x ∈ applyWrites pk rk [] (a :: ws) ↔
        x ∈ applyWrites pk rk [] ws ∨
          (x ∈ putItemState pk rk [] a ∧ ∀ b ∈ ws, ¬ sameKey pk rk x b) :=
      mem_applyWrites pk rk ws (putItemState pk rk [] a) x
    rw [h1, mem_putItemState, ih hpw.2 x]
    simp only [List.not_mem_nil, false_and, or_false, List.mem_cons]
    constructor
    · rintro (h | ⟨rfl, _⟩)
      · exact Or.inr h
      · exact Or.inl rfl
    · rintro (rfl | h)
      · exact Or.inr ⟨rfl, hpw.1⟩
      · exact Or.inl h

theorem unmarshal_marshal_roundtrip :
    ∀ l : List AttrItem,
      (∀ it ∈ l, marshalMap (avMapToJson it) = it) →
      (unmarshalListOfMaps l).map marshalMap = l := by
  intro l
  induction l with
  | nil => intro _; rfl
  | cons it rest ih =>
    intro h
    have h1 := h it (List.mem_cons_self it rest)
    have h2 := ih (fun x hx => h x (List.mem_cons_of_mem it hx))
    simp only [unmarshalListOfMaps, List.map_cons] at h2 ⊢
    rw [h1, h2]

theorem importLoop_trace (tbl : String) (po : Nat → Option String) :
    ∀ (items : List JsonObj) (i : Nat) (r : Request),
      r ∈ (importLoop tbl po items i).1 → ∃ it, r = Request.putItem tbl it := by
  intro items
  induction items with
  | nil => intro i r h; simp [importLoop] at h
  | cons it rest ih =>
    intro i r h
    cases hpo : po i with
    | some e =>
      simp [importLoop, hpo] at h
      exact ⟨marshalMap it, h⟩
    | none =>
      simp only [importLoop, hpo, List.mem_cons] at h
      rcases h with rfl | h
      · exact ⟨marshalMap it, rfl⟩
      · exact ih (i + 1) r h

/-! ### The claims -/

/-- C1: For every table whose items are representable in the typed-JSON
encoding (each scanned item survives the unmarshal/marshal round trip),
running export on the table and then running a confirmed import of the
produced document into an empty table with the same schema yields a
final item set equal, as a set, to the original table's item set.
Besides representability, the table's items must be pairwise distinct
on the declared key attributes (a DynamoDB table invariant) and every
put must succeed. -/
theorem C1_export_import_roundtrip (tbl : String) (st : StoreBehavior)
    (desc : TableDesc) (allItems : List AttrItem) (po : Nat → Option String)
    (hd : st.describe = Except.ok desc)
    (hp : pagesAll st.pages = some allItems)
    (hrepr : ∀ it ∈ allItems, marshalMap (avMapToJson it) = it)
    (hpo : ∀ j, po j = none)
    (hdist : allItems.Pairwise (fun a b =>
      ¬ sameKey (extractKeys desc.keySchema).1 (extractKeys desc.keySchema).2 a b)) :
    ∃ d, (exportDoc tbl st).2 = Except.ok d ∧
      (importFromFile tbl (rawOfDoc d) true po).2.2 = Except.ok () ∧
      ∀ x, x ∈ applyWrites (extractKeys desc.keySchema).1
                (extractKeys desc.keySchema).2 []
                (importFromFile tbl (rawOfDoc d) true po).2.1 ↔
           x ∈ allItems := by
  have hdoc := exportDoc_ok tbl st desc allItems hd hp
  refine ⟨_, hdoc, ?_, ?_⟩
  · have hrun :
        importFromFile tbl
          (rawOfDoc
            { TableName := desc.tableName
              PrimaryKey := (extractKeys desc.keySchema).1
              RangeKey := (extractKeys desc.keySchema).2
              Items := unmarshalListOfMaps allItems }) true po =
          importLoop tbl po (unmarshalListOfMaps allItems) 0 := rfl
    rw [hrun, importLoop_allOk tbl po hpo (unmarshalListOfMaps allItems) 0]
  · intro x
    have hrun :
        importFromFile tbl
          (rawOfDoc
            { TableName := desc.tableName
              PrimaryKey := (extractKeys desc.keySchema).1
              RangeKey := (extractKeys desc.keySchema).2
              Items := unmarshalListOfMaps allItems }) true po =
          importLoop tbl po (unmarshalListOfMaps allItems) 0 := rfl
    rw [hrun, importLoop_allOk tbl po hpo (unmarshalListOfMaps allItems) 0]
    simp only [unmarshal_marshal_roundtrip allItems hrepr]
    exact mem_applyWrites_empty (extractKeys desc.keySchema).1
      (extractKeys desc.keySchema).2 allItems hdist x

/-- C1 witness: the round trip at the spec's concrete `foo` table. -/
theorem C1_witness :
    ∃ d, (exportDoc "foo" fooStore).2 = Except.ok d ∧
      (importFromFile "foo" (rawOfDoc d) true (fun _ => none)).2.2 = Except.ok () ∧
      ∀ x, x ∈ applyWrites (extractKeys fooDesc.keySchema).1
                (extractKeys fooDesc.keySchema).2 []
                (importFromFile "foo" (rawOfDoc d) true (fun _ => none)).2.1 ↔
           x ∈ fooItems :=
  C1_export_import_roundtrip "foo" fooStore fooDesc fooItems (fun _ => none)
    rfl rfl
    (by
      intro it h
      simp [fooItems] at h
      rcases h with rfl | rfl <;> rfl)
    (fun _ => rfl)
    (by simp [fooItems, fooDesc, extractKeys, List.pairwise_cons, sameKey, lookupAttr])

/-- C2: For every document and every table, if the user answers no to
the confirmation prompt — or the prompt itself errors, in which case
`confirm` keeps its zero value — the import issues no requests, commits
no writes, returns success, and the table's item set is unchanged. -/
theorem C2_decline_zero_writes (tbl : String) (raw : RawDoc)
    (po : Nat → Option String) (pk rk : String) :
    importFromFile tbl raw false po = ([], [], Except.ok ()) ∧
    ∀ s : List AttrItem,
      applyWrites pk rk s (importFromFile tbl raw false po).2.1 = s :=
  ⟨rfl, fun _ => rfl⟩

/-- C3: For every confirmed import whose put-item write at position K is
the first to fail, exactly the items before K have been written (in
order, and they stay written — no rollback), a put was attempted for
each item up to and including K and none later, and the run returns the
failing write's error. -/
theorem C3_partial_import_failure (tbl : String) (raw : RawDoc)
    (po : Nat → Option String) (K : Nat) (e : String)
    (hK : K < (decodeDoc raw).Items.length)
    (hfail : po K = some e)
    (hok : ∀ j < K, po j = none) :
    (importFromFile tbl raw true po).2.1 =
      ((decodeDoc raw).Items.take K).map marshalMap ∧
    (importFromFile tbl raw true po).1 =
      ((decodeDoc raw).Items.take (K + 1)).map
        (fun o => Request.putItem tbl (marshalMap o)) ∧
    (importFromFile tbl raw true po).2.2 = Except.error e := by
  have h := importLoop_failAt tbl po (decodeDoc raw).Items 0 K e hK
    (by simpa using hfail) (by intro j hj; simpa using hok j hj)
  have hrun : importFromFile tbl raw true po =
      importLoop tbl po (decodeDoc raw).Items 0 := rfl
  rw [hrun, h]
  exact ⟨rfl, rfl, rfl⟩

/-- C3 witness: importing `cexDoc` when the write at position 1 fails
commits exactly the first item and stops. -/
theorem C3_witness :
    (importFromFile "t" cexDoc true poFail1).2.1 =
      ((decodeDoc cexDoc).Items.take 1).map marshalMap ∧
    (importFromFile "t" cexDoc true poFail1).1 =
      ((decodeDoc cexDoc).Items.take 2).map
        (fun o => Request.putItem "t" (marshalMap o)) ∧
    (importFromFile "t" cexDoc true poFail1).2.2 = Except.error "boom" :=
  C3_partial_import_failure "t" cexDoc poFail1 1 "boom" (by decide) rfl
    (by decide)

/-- C4 counterexample: two confirmed imports of the same two-item
document in which the failing put is at position 0 in one run (nothing
committed) and at position 1 in the other (one item committed) return
identical errors, so the returned error does not identify the failing
item's position. -/
theorem C4_error_position_counterexample :
    (importFromFile "t" cexDoc true poFail0).2.2 = Except.error "boom" ∧
    (importFromFile "t" cexDoc true poFail1).2.2 = Except.error "boom" ∧
    (importFromFile "t" cexDoc true poFail0).2.1.length = 0 ∧
    (importFromFile "t" cexDoc true poFail1).2.1.length = 1 ∧
    (importFromFile "t" cexDoc true poFail0).2.2 =
      (importFromFile "t" cexDoc true poFail1).2.2 :=
  ⟨rfl, rfl, rfl, rfl, rfl⟩

/-- C4 amended: for every confirmed import whose put-item write at
position K is the first to fail, the import returns the store's error
for that write verbatim; nothing identifying K is added to it. -/
theorem C4_error_propagated_verbatim (tbl : String) (raw : RawDoc)
    (po : Nat → Option String) (K : Nat) (e : String)
    (hK : K < (decodeDoc raw).Items.length)
    (hfail : po K = some e)
    (hok : ∀ j < K, po j = none) :
    (importFromFile tbl raw true po).2.2 = Except.error e := by
  have h := importLoop_failAt tbl po (decodeDoc raw).Items 0 K e hK
    (by simpa using hfail) (by intro j hj; simpa using hok j hj)
  have hrun : importFromFile tbl raw true po =
      importLoop tbl po (decodeDoc raw).Items 0 := rfl
  rw [hrun, h]

/-- C4 witness: the amended propagation at a failing first write. -/
theorem C4_witness :
    (importFromFile "t" cexDoc true poFail0).2.2 = Except.error "boom" :=
  C4_error_propagated_verbatim "t" cexDoc poFail0 0 "boom" (by decide) rfl
    (by decide)

/-- C5: For every export in which some scan page request fails — in
particular a page with index greater than 1, here after any number of
successful pages — the export returns that error and produces no
document; the items of the earlier successful pages are discarded. -/
theorem C5_scan_failure_no_document (tbl : String) (st : StoreBehavior)
    (desc : TableDesc) (okpgs : List (List AttrItem)) (e : String)
    (rest : List (Except String (List AttrItem)))
    (hd : st.describe = Except.ok desc)
    (hp : st.pages = okpgs.map Except.ok ++ Except.error e :: rest) :
    (exportRun tbl st).2 = Except.error e := by
  have h := scanPages_failAt tbl e rest okpgs
  simp [exportRun, exportDoc, hd, hp, h]

/-- C5 witness: a scan failing on its third page, after two successful
pages, makes the whole export fail with that error. -/
theorem C5_witness : (exportRun "foo" failStore).2 = Except.error "scanfail" :=
  C5_scan_failure_no_document "foo" failStore fooDesc [fooItems, fooItems]
    "scanfail" [] rfl rfl

/-- C6: For every successful export, a key schema declaring only a hash
key yields a document whose `RangeKey` is the empty string, and a key
schema declaring both a hash and a range key (in either order), with
non-empty declared names, yields non-empty `PrimaryKey` and `RangeKey`
equal to the declared hash-key and range-key attribute names. -/
theorem C6_schema_fields (tbl : String) (st : StoreBehavior)
    (desc : TableDesc) (items : List AttrItem)
    (hd : st.describe = Except.ok desc)
    (hp : pagesAll st.pages = some items) :
    (∀ h : String,
      desc.keySchema = [{ attributeName := h, keyType := KeyType.hash }] →
      ∃ d, (exportDoc tbl st).2 = Except.ok d ∧
        d.PrimaryKey = h ∧ d.RangeKey = "") ∧
    (∀ h r : String,
      (desc.keySchema = [{ attributeName := h, keyType := KeyType.hash },
                         { attributeName := r, keyType := KeyType.range }] ∨
       desc.keySchema = [{ attributeName := r, keyType := KeyType.range },
                         { attributeName := h, keyType := KeyType.hash }]) →
      h ≠ "" → r ≠ "" →
      ∃ d, (exportDoc tbl st).2 = Except.ok d ∧
        d.PrimaryKey = h ∧ d.RangeKey = r ∧
        d.PrimaryKey ≠ "" ∧ d.RangeKey ≠ "") := by
  have hdoc := exportDoc_ok tbl st desc items hd hp
  constructor
  · intro h hks
    refine ⟨_, hdoc, ?_, ?_⟩ <;> simp [hks, extractKeys]
  · intro h r hks hh hr
    refine ⟨_, hdoc, ?_, ?_, ?_, ?_⟩ <;>
      rcases hks with hks | hks <;> simp [hks, extractKeys, hh, hr]

/-- C6 witness: the hash-only table `foo` and the composite-key table
`bar`. -/
theorem C6_witness :
    (∃ d, (exportDoc "foo" fooStore).2 = Except.ok d ∧
      d.PrimaryKey = "id" ∧ d.RangeKey = "") ∧
    (∃ d, (exportDoc "bar" barStore).2 = Except.ok d ∧
      d.PrimaryKey = "pk" ∧ d.RangeKey = "sk" ∧
      d.PrimaryKey ≠ "" ∧ d.RangeKey ≠ "") :=
  ⟨(C6_schema_fields "foo" fooStore fooDesc fooItems rfl rfl).1 "id" rfl,
   (C6_schema_fields "bar" barStore barDesc [] rfl rfl).2 "pk" "sk"
     (Or.inl rfl) (by decide) (by decide)⟩

/-- C7: Performing a confirmed import of the same document twice in
sequence into the same table yields the same final item set as
performing it once: the writes are unconditional overwrites keyed by
the primary/range key attributes, so replaying the identical write
sequence changes no membership. -/
theorem C7_import_idempotent (tbl : String) (raw : RawDoc)
    (po : Nat → Option String) (pk rk : String) (s : List AttrItem) :
    ∀ x, x ∈ applyWrites pk rk
              (applyWrites pk rk s (importFromFile tbl raw true po).2.1)
              (importFromFile tbl raw true po).2.1 ↔
         x ∈ applyWrites pk rk s (importFromFile tbl raw true po).2.1 := by
  intro x
  generalize (importFromFile tbl raw true po).2.1 = w
  constructor
  · intro h
    rcases (mem_applyWrites pk rk w (applyWrites pk rk s w) x).mp h with
      h1 | ⟨h1, _⟩
    · exact (mem_applyWrites pk rk w s x).mpr (Or.inl h1)
    · exact h1
  · intro h
    rcases (mem_applyWrites pk rk w s x).mp h with h1 | ⟨h1, h2⟩
    · exact (mem_applyWrites pk rk w (applyWrites pk rk s w) x).mpr (Or.inl h1)
    · exact (mem_applyWrites pk rk w (applyWrites pk rk s w) x).mpr
        (Or.inr ⟨h, h2⟩)

/-- C8: For every document, the serialized export document top level is the
object with exactly the capitalized keys `TableName`, `PrimaryKey`,
`RangeKey`, `Items`, in the Go struct's declaration order; and on the
spec's concrete table `foo` with hash key `id` and the two items, the
export output is exactly the expected JSON string. -/
theorem C8_serialized_shape :
    (∀ d : exportFormat,
      serializeExportFormat d =
        "\x7b\x22TableName\x22:" ++ jstr d.TableName ++
        ",\x22PrimaryKey\x22:" ++ jstr d.PrimaryKey ++
        ",\x22RangeKey\x22:" ++ jstr d.RangeKey ++
        ",\x22Items\x22:" ++
          serializeJson (JsonValue.arr (d.Items.map JsonValue.obj)) ++
        "\x7d") ∧
    (exportRun "foo" fooStore).2 =
      Except.ok
        "\x7b\x22TableName\x22:\x22foo\x22,\x22PrimaryKey\x22:\x22id\x22,\x22RangeKey\x22:\x22\x22,\x22Items\x22:[\x7b\x22id\x22:\x22a\x22,\x22v\x22:1\x7d,\x7b\x22id\x22:\x22b\x22,\x22v\x22:2\x7d]\x7d" :=
  ⟨fun _ => rfl, rfl⟩

/-- C9: For every import, the document's `TableName` field has no effect
on behaviour (runs on documents differing only there are identical),
every issued request is a put against the table named by the `--table`
argument, and missing top-level fields of the parsed document default to
empty values. -/
theorem C9_tablename_informational (tbl : String) (raw : RawDoc)
    (confirm : Bool) (po : Nat → Option String) :
    (∀ tn, importFromFile tbl { raw with tableName := tn } confirm po =
           importFromFile tbl raw confirm po) ∧
    (∀ r ∈ (importFromFile tbl raw confirm po).1,
      ∃ it, r = Request.putItem tbl it) ∧
    decodeDoc { tableName := none, primaryKey := none, rangeKey := none,
                items := none } =
      { TableName := "", PrimaryKey := "", RangeKey := "", Items := [] } := by
  refine ⟨fun _ => rfl, ?_, rfl⟩
  intro r hr
  cases confirm with
  | false => simp [importFromFile] at hr
  | true =>
    have hrun : importFromFile tbl raw true po =
        importLoop tbl po (decodeDoc raw).Items 0 := rfl
    rw [hrun] at hr
    exact importLoop_trace tbl po (decodeDoc raw).Items 0 r hr

/-- C9 witness: in a confirmed concrete import, the first issued request
is a put against the `--table` argument `t`. -/
theorem C9_witness :
    ∃ it, Request.putItem "t" (marshalMap [("id", JsonValue.str "a")]) =
      Request.putItem "t" it :=
  (C9_tablename_informational "t" cexDoc true (fun _ => none)).2.1
    (Request.putItem "t" (marshalMap [("id", JsonValue.str "a")]))
    (List.Mem.head _)

/-- C10: For every run of the export operation, successful or not, no
put-item request is ever issued: every request in the export trace is
the describe-table request or a scan request against the table. -/
theorem C10_export_read_only (tbl : String) (st : StoreBehavior) :
    ∀ r ∈ (exportRun tbl st).1,
      (∀ t it, r ≠ Request.putItem t it) ∧
      (r = Request.describeTable tbl ∨ r = Request.scan tbl) := by
  intro r hr
  have hshape : r = Request.describeTable tbl ∨ r = Request.scan tbl := by
    cases hd : st.describe with
    | error e =>
      simp [exportRun, exportDoc, hd] at hr
      exact Or.inl hr
    | ok table =>
      simp only [exportRun, exportDoc, hd, List.mem_cons] at hr
      rcases hr with rfl | hr
      · exact Or.inl rfl
      · exact Or.inr (scanPages_trace tbl st.pages r hr)
  refine ⟨?_, hshape⟩
  intro t it h
  rcases hshape with rfl | rfl <;> exact Request.noConfusion h

/-- C10 witness: the describe request of the concrete `foo` export is in
its trace and is not a put. -/
theorem C10_witness :
    (∀ t it, Request.describeTable "foo" ≠ Request.putItem t it) ∧
    (Request.describeTable "foo" = Request.describeTable "foo" ∨
     Request.describeTable "foo" = Request.scan "foo") :=
  C10_export_read_only "foo" fooStore (Request.describeTable "foo")
    (List.Mem.head _)
